import Mathlib

/-!
Verification development for the Solana token launcher CLI
(switch-afk/launch-tool).

This file gives a shallow embedding, in Lean 4, of the pieces of the tool
that its specification makes checkable claims about:

* the mint-account byte decoder in `src/check-token.js` (`checkToken`,
  lines 139-154);
* the explorer-link builders (`tokenUtils.getExplorerUrls` in
  `src/utils.js` and `getExplorerUrl` / `getNetworkCluster` in
  `config/config.js`);
* the address validator (`validators.validateAddress` in `src/utils.js`);
* the local token-record store (`fileUtils.saveJson` / `fileUtils.loadJson`
  together with the find-and-patch logic in `mintTokens` and
  `revokeAuthorities`);
* the inspection flow of `checkToken` (account existence, metadata fetch,
  best-effort off-chain URI fetch).

JavaScript idioms are modelled explicitly: byte buffers are lists of
naturals below 256, `undefined` becomes `Option`, thrown exceptions become
`Except` or `Option`, and JavaScript truthiness of `a || b` is spelled out
where the source relies on it.  JSON values are modelled with integer
numbers (every numeric field of a token record is an integer; fractional
doubles are outside the scope of this model).
-/

namespace LaunchTool

set_option maxHeartbeats 1000000

/-! ## Byte buffers and the mint-account decoder

`checkToken` (src/check-token.js, lines 139-154) parses the raw mint
account data:

  if (mintData.length >= 82) {
    const supply = new DataView(mintData.buffer, mintData.byteOffset + 36, 8)
    const decimals = mintData[44]
    const isInitialized = mintData[45] === 1
    mintInfo = { supply: supply.getBigUint64(0, true), decimals, isInitialized }
  }

`getBigUint64(0, true)` is an 8-byte little-endian unsigned read at byte
offset 36 of the account data.  A buffer is a `List Nat` of byte values.
-/

/-- Snapshot of a mint account as produced by `checkToken`:
`{ supply, decimals, isInitialized }`.  The initialized flag is named
`isInit` here. -/
structure MintAccountSnapshot where
  supply : Nat
  decimals : Nat
  isInit : Bool
  deriving DecidableEq, Repr

/-- Read the byte at index `i` of buffer `b` (0 when out of range; the
source only reads in-range indices, guarded by the length check). -/
def byteAt (b : List Nat) (i : Nat) : Nat := b.getD i 0

/-- Little-endian unsigned 64-bit read at offset `off`, exactly what
`new DataView(buf, off, 8).getBigUint64(0, true)` computes. -/
def readU64LE (b : List Nat) (off : Nat) : Nat :=
  byteAt b off +
    256 * (byteAt b (off + 1) +
      256 * (byteAt b (off + 2) +
        256 * (byteAt b (off + 3) +
          256 * (byteAt b (off + 4) +
            256 * (byteAt b (off + 5) +
              256 * (byteAt b (off + 6) +
                256 * byteAt b (off + 7)))))))

/-- The mint-account decoder of `checkToken`: on a buffer of length at
least 82 it reads the supply (u64 little-endian at offset 36), the
decimals byte at offset 44 and the initialized flag (byte 45 equal to 1);
on a shorter buffer the `if` is skipped and `mintInfo` stays `null`,
modelled as `none`. -/
def decodeMint (b : List Nat) : Option MintAccountSnapshot :=
  if 82 ≤ b.length then
    some { supply := readU64LE b 36
           decimals := byteAt b 44
           isInit := byteAt b 45 == 1 }
  else
    none

/-- Serialize a u64 value to its 8 little-endian bytes, the layout
`getBigUint64(0, true)` reads back. -/
def encodeU64LE (n : Nat) : List Nat :=
  [n % 256, n / 256 % 256, n / 65536 % 256, n / 16777216 % 256,
   n / 4294967296 % 256, n / 1099511627776 % 256,
   n / 281474976710656 % 256, n / 72057594037927936 % 256]

/-- Overwrite the bytes of `b` starting at offset `off` with `xs`
(the part of `b` beyond stays). -/
def writeBytes (b : List Nat) (off : Nat) (xs : List Nat) : List Nat :=
  b.take off ++ xs ++ b.drop (off + xs.length)

/-- An 82-byte buffer of zeros except byte 45 set to 1 (the scenario
buffer of the specification). -/
def scenarioBuf : List Nat :=
  writeBytes (List.replicate 82 0) 45 [1]

/-- The 8-byte `DataView` read with its JavaScript range check made
explicit: constructing `new DataView(buf, off, 8)` (or reading past the
end) throws a `RangeError` when the 8-byte window does not fit; otherwise
the read is `readU64LE`. -/
def readU64LEChecked (b : List Nat) (off : Nat) : Option Nat :=
  if off + 8 ≤ b.length then some (readU64LE b off) else none

/-- The whole guarded parse step of `checkToken` (lines 139-154),
including its observable warning channel.  The source wraps the branch in
try/catch and logs "Could not parse mint account data details" only from
the catch block; the only throwing operation inside the branch is the
`DataView` read, modelled by `readU64LEChecked`.  Plain index reads
(`mintData[44]`, `mintData[45]`) yield `undefined` rather than throwing
when out of range, so they are total (`byteAt`).  The second component of
the result records whether the warning was printed. -/
def parseMintStep (b : List Nat) : Option MintAccountSnapshot × Bool :=
  if 82 ≤ b.length then
    match readU64LEChecked b 36 with
    | some s => (some { supply := s, decimals := byteAt b 44, isInit := byteAt b 45 == 1 }, false)
    | none => (none, true)
  else
    (none, false)

/-! ## Strings: JavaScript case folding and the URL builders

`toLowerCase` / `toUpperCase` on the ASCII strings the tool passes around
("DEVNET", "mainnet-beta", ...) fold only the letters A-Z / a-z. -/

/-- ASCII lower-casing of one character, what `toLowerCase` does on the
code points this tool uses. -/
def jsLowerChar (c : Char) : Char :=
  if 65 ≤ c.toNat ∧ c.toNat ≤ 90 then Char.ofNat (c.toNat + 32) else c

/-- ASCII upper-casing of one character. -/
def jsUpperChar (c : Char) : Char :=
  if 97 ≤ c.toNat ∧ c.toNat ≤ 122 then Char.ofNat (c.toNat - 32) else c

/-- JavaScript `s.toLowerCase()` on ASCII strings. -/
def jsToLower (s : String) : String :=
  String.mk (s.data.map jsLowerChar)

/-- JavaScript `s.toUpperCase()` on ASCII strings. -/
def jsToUpper (s : String) : String :=
  String.mk (s.data.map jsUpperChar)

/-- The string `s` ends with `suffix`. -/
def strEndsWith (s suffix : String) : Prop :=
  ∃ p : String, s = p ++ suffix

/-- Result of `tokenUtils.getExplorerUrls`: the two viewer URLs. -/
structure ExplorerUrls where
  solana : String
  solscan : String
  deriving DecidableEq, Repr

/-- Model of `tokenUtils.getExplorerUrls` (src/utils.js, lines 562-569):

  const cluster = network.toLowerCase() === 'mainnet' ? '' : `?cluster=<lc>`
  return { solana: `https://explorer.solana.com/<type>/<address><cluster>`,
           solscan: `https://solscan.io/<type>/<address><cluster>` } -/
def getExplorerUrls (address ty network : String) : ExplorerUrls :=
  let cluster := if jsToLower network = "mainnet" then "" else "?cluster=" ++ jsToLower network
  { solana := "https://explorer.solana.com/" ++ ty ++ "/" ++ address ++ cluster
    solscan := "https://solscan.io/" ++ ty ++ "/" ++ address ++ cluster }

/-- Model of `CONFIG.NETWORK` (config/config.js): the RPC endpoints of
the three recognized networks. -/
def NETWORK : String → Option String := fun k =>
  if k = "DEVNET" then some "https://api.devnet.solana.com"
  else if k = "MAINNET" then some "https://api.mainnet-beta.solana.com"
  else if k = "TESTNET" then some "https://api.testnet.solana.com"
  else none

/-- Model of `CONFIG.EXPLORERS` (config/config.js): the table only has
entries for DEVNET and MAINNET; any other key reads as `undefined`. -/
def EXPLORERS : String → Option (String → Option String) := fun net =>
  if net = "DEVNET" then
    some (fun t =>
      if t = "SOLANA" then some "https://explorer.solana.com"
      else if t = "SOLSCAN" then some "https://solscan.io"
      else none)
  else if net = "MAINNET" then
    some (fun t =>
      if t = "SOLANA" then some "https://explorer.solana.com"
      else if t = "SOLSCAN" then some "https://solscan.io"
      else none)
  else none

/-- Model of `getNetworkCluster` (config/config.js, lines 61-63). -/
def getNetworkCluster (network : String) : String :=
  if jsToLower network = "mainnet" then "" else "?cluster=" ++ jsToLower network

/-- Model of `getExplorerUrl` (config/config.js, lines 55-58):

  const cluster = network.toLowerCase() === "mainnet" ? "" : `?cluster=<lc>`
  return CONFIG.EXPLORERS[network.toUpperCase()][type.toUpperCase()] + cluster

When `CONFIG.EXPLORERS[network.toUpperCase()]` is `undefined` the member
access on it throws a `TypeError`, modelled as `Except.error`; a missing
type key merely reads `undefined`, which string concatenation renders as
the text "undefined". -/
def getExplorerUrl (ty network : String) : Except String String :=
  let cluster := if jsToLower network = "mainnet" then "" else "?cluster=" ++ jsToLower network
  match EXPLORERS (jsToUpper network) with
  | none => Except.error "TypeError: cannot read properties of undefined"
  | some tbl =>
    match tbl (jsToUpper ty) with
    | some base => Except.ok (base ++ cluster)
    | none => Except.ok ("undefined" ++ cluster)

/-! ## Address validation -/

/-- The base58 alphabet used by Solana addresses (no 0, O, I, l). -/
def isBase58Char (c : Char) : Bool :=
  "123456789ABCDEFGHJKLMNPQRSTUVWXYZabcdefghijkmnopqrstuvwxyz".data.contains c

/-- Model of `validators.validateAddress` (src/utils.js, lines 595-602).
A non-string or null/undefined input (`none`) is rejected; otherwise only
the length is checked:

  return address.length >= 32 && address.length <= 44

No base58-alphabet or decodability check is performed. -/
def validateAddress (address : Option String) : Bool :=
  match address with
  | none => false
  | some s => decide (32 ≤ s.length) && decide (s.length ≤ 44)

/-- A 40-character string that is not base58 (contains both a zero digit
and an exclamation mark). -/
def nonBase58Sample : String :=
  "0!AAAAAAAAAAAAAAAAAAAAAAAAAAAAAAAAAAAAAA"

/-! ## The local token-record store

One JSON file per created token.  For the patch-by-mint-address claims
the relevant record fields are the ones `mintTokens` and
`revokeAuthorities` read and write. -/

/-- A stored token record (the fields involved in the patch flows). -/
structure TokenRecord where
  name : String
  symbol : String
  mintAddress : String
  network : String
  totalMinted : Nat
  lastMintAmount : Option Nat
  lastMintDate : Option String
  mintAuthorityRevoked : Bool
  freezeAuthorityRevoked : Bool
  mintRevokeTransaction : Option String
  freezeRevokeTransaction : Option String
  lastRevokeDate : Option String
  deriving DecidableEq, Repr

/-- The token directory: a list of (file path, parse result) pairs.  A
`none` parse result models a file whose JSON fails to load (the
`catch { return false }` in the find callback skips it). -/
abbrev TokenStore := List (String × Option TokenRecord)

/-- The lookup both `mintTokens` (lines 318-326) and `revokeAuthorities`
(lines 336-344) perform:

  const tokenFile = tokenFiles.find(file => {
    try { return loadJson(file).mintAddress === tokenAddress }
    catch { return false } }) -/
def findTokenFile (store : TokenStore) (addr : String) : Option String :=
  (List.find? (fun e => match e.2 with
    | some r => r.mintAddress == addr
    | none => false) store).map (fun e => e.1)

/-- The patch-by-mint-address operation performed after minting and after
revocation: look the record file up by `mintAddress`; if found, overwrite
that file with the updated record (`saveJson`); if not found, do nothing
(the `if (tokenFile)` guard). -/
def patchTokenStore (store : TokenStore) (addr : String) (updated : TokenRecord) : TokenStore :=
  match findTokenFile store addr with
  | none => store
  | some path => List.map (fun e => if e.1 = path then (path, some updated) else e) store

/-- Per-command results of `revokeAuthorities` (the `results` object):
fields start out absent (`none`) and are set to `true` / `false` /
a signature string as the two revocation branches run. -/
structure RevokeResults where
  mintRevoked : Option Bool
  freezeRevoked : Option Bool
  mintRevokeSignature : Option String
  freezeRevokeSignature : Option String
  deriving DecidableEq, Repr

/-- JavaScript `a || b` where `a` is a possibly-undefined boolean:
`undefined` and `false` are falsy, so the result is `b` unless `a` is
`true`. -/
def jsOrBool (a : Option Bool) (b : Bool) : Bool :=
  match a with
  | some true => true
  | some false => b
  | none => b

/-- JavaScript `a || b` where `a` is a possibly-undefined string: the
empty string and `undefined` are falsy. -/
def jsOrStr (a b : Option String) : Option String :=
  match a with
  | some s => if s = "" then b else some s
  | none => b

/-- The record update of `revokeAuthorities` (lines 347-354):

  const updatedInfo = {
    ...tokenInfo,
    mintAuthorityRevoked: results.mintRevoked || tokenInfo.mintAuthorityRevoked,
    freezeAuthorityRevoked: results.freezeRevoked || tokenInfo.freezeAuthorityRevoked,
    mintRevokeTransaction: results.mintRevokeSignature || tokenInfo.mintRevokeTransaction,
    freezeRevokeTransaction: results.freezeRevokeSignature || tokenInfo.freezeRevokeTransaction,
    lastRevokeDate: new Date().toISOString() }

`now` stands for the ISO timestamp. -/
def updateRecordAfterRevoke (results : RevokeResults) (now : String)
    (tokenInfo : TokenRecord) : TokenRecord :=
  { tokenInfo with
    mintAuthorityRevoked := jsOrBool results.mintRevoked tokenInfo.mintAuthorityRevoked
    freezeAuthorityRevoked := jsOrBool results.freezeRevoked tokenInfo.freezeAuthorityRevoked
    mintRevokeTransaction := jsOrStr results.mintRevokeSignature tokenInfo.mintRevokeTransaction
    freezeRevokeTransaction := jsOrStr results.freezeRevokeSignature tokenInfo.freezeRevokeTransaction
    lastRevokeDate := some now }

/-! ## The inspection flow of `checkToken`

The network-facing steps are abstracted as a chain state: whether the
mint account exists (and its raw data), whether the metadata account
exists (a throwing `fetchMetadataFromSeeds` is `none`), and the outcome
of the best-effort off-chain URI fetch. -/

/-- On-chain Metaplex metadata, as far as the inspection consumes it. -/
structure OnchainMetadata where
  name : String
  symbol : String
  uri : String
  deriving DecidableEq, Repr

/-- Outcome of `fetch(metadata.uri)`: a 200 response with a JSON body,
a non-200 response (`response.ok` false), or a thrown transport error. -/
inductive UriFetchResult where
  | ok (body : String)
  | httpError
  | netError
  deriving DecidableEq, Repr

/-- The abstract chain state an inspection runs against. -/
structure ChainState where
  account : Option (List Nat)
  metadataAccount : Option OnchainMetadata
  uriFetch : UriFetchResult
  deriving DecidableEq, Repr

/-- The composite report `checkToken` displays: on-chain mint facts,
the metadata section, and the off-chain section (`none` is the
"unavailable" marker). -/
structure InspectionReport where
  mintInfo : Option MintAccountSnapshot
  metadataPresent : Bool
  metadata : Option OnchainMetadata
  offchain : Option String
  deriving DecidableEq, Repr

/-- Outcome of an inspection: either the early abort on a missing mint
account (`spinner.fail` + return), or a produced report. -/
inductive InspectionOutcome where
  | notFound
  | report (r : InspectionReport)
  deriving DecidableEq, Repr

/-- Model of the inspection flow of `checkToken` (src/check-token.js,
lines 123-245): abort with `notFound` when the mint account does not
exist; otherwise parse the mint data (non-fatally), probe the metadata
account (absence is a valid outcome), and, when metadata with a
non-empty URI is present, attempt the off-chain fetch, degrading to the
"unavailable" marker on a non-200 response or a thrown fetch. -/
def checkTokenModel (st : ChainState) : InspectionOutcome :=
  match st.account with
  | none => InspectionOutcome.notFound
  | some data =>
    let mintInfo := (parseMintStep data).1
    match st.metadataAccount with
    | none =>
      InspectionOutcome.report
        { mintInfo := mintInfo, metadataPresent := false, metadata := none, offchain := none }
    | some md =>
      let off := if md.uri = "" then none else
        match st.uriFetch with
        | UriFetchResult.ok j => some j
        | UriFetchResult.httpError => none
        | UriFetchResult.netError => none
      InspectionOutcome.report
        { mintInfo := mintInfo, metadataPresent := true, metadata := some md, offchain := off }

/-! ## JSON values and the record store serialization

`fileUtils.saveJson` writes `JSON.stringify(data, null, 2)` to the file;
`fileUtils.loadJson` reads the file back and applies `JSON.parse`.  JSON
values are modelled with integer numbers (every numeric field of a token
record is an integer; fractional doubles are outside this model). -/

/-- A JSON value.  Object fields are kept in insertion order, as
JavaScript objects do. -/
inductive Json where
  | null
  | bool (b : Bool)
  | num (n : Int)
  | str (s : String)
  | arr (elems : List Json)
  | obj (fields : List (String × Json))
  deriving Repr

/-- The double-quote character. -/
def quoteC : Char := Char.ofNat 34

/-- The backslash character. -/
def backslashC : Char := Char.ofNat 92

/-- The opening-brace character. -/
def lbraceC : Char := Char.ofNat 123

/-- The closing-brace character. -/
def rbraceC : Char := Char.ofNat 125

/-- The decimal digit character for `n < 10`. -/
def digitC (n : Nat) : Char := Char.ofNat (48 + n)

/-- The lowercase hexadecimal digit character for `n < 16`, as
`JSON.stringify` uses in `\u00XX` escapes. -/
def hexC (n : Nat) : Char := if n < 10 then Char.ofNat (48 + n) else Char.ofNat (87 + n)

/-- How `JSON.stringify` renders one character inside a string literal:
quote and backslash are escaped, the common control characters get their
short escapes, the remaining control characters become `\u00XX`, and
everything else is emitted verbatim. -/
def escChar (c : Char) : List Char :=
  if c = quoteC then [backslashC, quoteC]
  else if c = backslashC then [backslashC, backslashC]
  else if c = Char.ofNat 8 then [backslashC, 'b']
  else if c = Char.ofNat 9 then [backslashC, 't']
  else if c = Char.ofNat 10 then [backslashC, 'n']
  else if c = Char.ofNat 12 then [backslashC, 'f']
  else if c = Char.ofNat 13 then [backslashC, 'r']
  else if c.toNat < 32 then
    [backslashC, 'u', '0', '0', hexC (c.toNat / 16), hexC (c.toNat % 16)]
  else [c]

/-- Escape a whole string body. -/
def escapeList : List Char → List Char
  | [] => []
  | c :: cs => escChar c ++ escapeList cs

/-- Decimal digit characters of `n`, least significant first. -/
def natDigitsRev (n : Nat) : List Char :=
  if n < 10 then [digitC n] else digitC (n % 10) :: natDigitsRev (n / 10)
  termination_by n
  decreasing_by omega

/-- Decimal rendering of a natural number. -/
def natChars (n : Nat) : List Char := (natDigitsRev n).reverse

/-- Decimal rendering of an integer. -/
def intChars (n : Int) : List Char :=
  if n < 0 then '-' :: natChars n.natAbs else natChars n.natAbs

/-- `n` spaces. -/
def nspaces (n : Nat) : List Char := List.replicate n ' '

mutual

/-- `JSON.stringify(v, null, 2)` as a character list, at indentation
level `ind`: atoms are rendered inline, non-empty arrays and objects are
spread over lines with two-space indentation. -/
def render (v : Json) (ind : Nat) : List Char :=
  match v with
  | Json.null => ['n', 'u', 'l', 'l']
  | Json.bool true => ['t', 'r', 'u', 'e']
  | Json.bool false => ['f', 'a', 'l', 's', 'e']
  | Json.num n => intChars n
  | Json.str s => quoteC :: escapeList s.data ++ [quoteC]
  | Json.arr [] => ['[', ']']
  | Json.arr (x :: xs) =>
    '[' :: '\n' :: renderArrList (x :: xs) (ind + 2) ++ '\n' :: nspaces ind ++ [']']
  | Json.obj [] => [lbraceC, rbraceC]
  | Json.obj (f :: fs) =>
    lbraceC :: '\n' :: renderObjList (f :: fs) (ind + 2) ++ '\n' :: nspaces ind ++ [rbraceC]
  termination_by sizeOf v
  decreasing_by all_goals (simp_wf <;> omega)

/-- The comma-and-newline separated item lines of an array. -/
def renderArrList (xs : List Json) (ind : Nat) : List Char :=
  match xs with
  | [] => []
  | [x] => nspaces ind ++ render x ind
  | x :: y :: ys =>
    nspaces ind ++ render x ind ++ ',' :: '\n' :: renderArrList (y :: ys) ind
  termination_by sizeOf xs
  decreasing_by all_goals (simp_wf <;> omega)

/-- The comma-and-newline separated field lines of an object. -/
def renderObjList (fs : List (String × Json)) (ind : Nat) : List Char :=
  match fs with
  | [] => []
  | [(k, v)] =>
    nspaces ind ++ quoteC :: escapeList k.data ++ quoteC :: ':' :: ' ' :: render v ind
  | (k, v) :: g :: gs =>
    nspaces ind ++ quoteC :: escapeList k.data ++ quoteC :: ':' :: ' ' :: render v ind ++
      ',' :: '\n' :: renderObjList (g :: gs) ind
  termination_by sizeOf fs
  decreasing_by all_goals (simp_wf <;> omega)

end

/-- `JSON.stringify(v, null, 2)`. -/
def stringifyPretty (v : Json) : String := String.mk (render v 0)

/-- Is `c` JSON whitespace? -/
def isWsC (c : Char) : Bool := c = ' ' ∨ c = '\n' ∨ c = '\t' ∨ c = '\r'

/-- Is `c` a decimal digit? -/
def isDigitC (c : Char) : Bool := 48 ≤ c.toNat ∧ c.toNat ≤ 57

/-- Drop leading JSON whitespace. -/
def skipWs : List Char → List Char
  | [] => []
  | c :: cs => if isWsC c then skipWs cs else c :: cs

/-- Numeric value of a hexadecimal digit character. -/
def hexVal (c : Char) : Option Nat :=
  if 48 ≤ c.toNat ∧ c.toNat ≤ 57 then some (c.toNat - 48)
  else if 97 ≤ c.toNat ∧ c.toNat ≤ 102 then some (c.toNat - 87)
  else if 65 ≤ c.toNat ∧ c.toNat ≤ 70 then some (c.toNat - 55)
  else none

/-- Parse the body of a string literal (the opening quote already
consumed) up to and including the closing quote, undoing the escapes. -/
def parseStrChars : List Char → Option (List Char × List Char)
  | [] => none
  | c :: cs =>
    if c = quoteC then some ([], cs)
    else if c = backslashC then
      match cs with
      | [] => none
      | e :: cs2 =>
        if e = quoteC then
          (fun p => (quoteC :: p.1, p.2)) <$> parseStrChars cs2
        else if e = backslashC then
          (fun p => (backslashC :: p.1, p.2)) <$> parseStrChars cs2
        else if e = '/' then
          (fun p => ('/' :: p.1, p.2)) <$> parseStrChars cs2
        else if e = 'b' then
          (fun p => (Char.ofNat 8 :: p.1, p.2)) <$> parseStrChars cs2
        else if e = 't' then
          (fun p => (Char.ofNat 9 :: p.1, p.2)) <$> parseStrChars cs2
        else if e = 'n' then
          (fun p => (Char.ofNat 10 :: p.1, p.2)) <$> parseStrChars cs2
        else if e = 'f' then
          (fun p => (Char.ofNat 12 :: p.1, p.2)) <$> parseStrChars cs2
        else if e = 'r' then
          (fun p => (Char.ofNat 13 :: p.1, p.2)) <$> parseStrChars cs2
        else if e = 'u' then
          match cs2 with
          | h1 :: h2 :: h3 :: h4 :: cs3 =>
            match hexVal h1, hexVal h2, hexVal h3, hexVal h4 with
            | some a, some b, some c3, some d =>
              (fun p => (Char.ofNat (4096 * a + 256 * b + 16 * c3 + d) :: p.1, p.2)) <$>
                parseStrChars cs3
            | _, _, _, _ => none
          | _ => none
        else none
    else (fun p => (c :: p.1, p.2)) <$> parseStrChars cs

/-- Parse a run of decimal digits into `acc`, stopping at the first
non-digit. -/
def parseDigits : List Char → Nat → Nat × List Char
  | [], acc => (acc, [])
  | c :: cs, acc =>
    if isDigitC c then parseDigits cs (acc * 10 + (c.toNat - 48)) else (acc, c :: cs)

/-- Replace-or-append assignment `o[k] = v` on a JavaScript object: the
key keeps its first position, the value is the last one assigned. -/
def objInsert : List (String × Json) → String → Json → List (String × Json)
  | [], k, v => [(k, v)]
  | (k0, v0) :: rest, k, v =>
    if k0 = k then (k0, v) :: rest else (k0, v0) :: objInsert rest k v

/-- Parse the tail of the literal `null` (the `n` already consumed). -/
def parseNullLit : List Char → Option (Json × List Char)
  | 'u' :: 'l' :: 'l' :: r => some (Json.null, r)
  | _ => none

/-- Parse the tail of the literal `true`. -/
def parseTrueLit : List Char → Option (Json × List Char)
  | 'r' :: 'u' :: 'e' :: r => some (Json.bool true, r)
  | _ => none

/-- Parse the tail of the literal `false`. -/
def parseFalseLit : List Char → Option (Json × List Char)
  | 'a' :: 'l' :: 's' :: 'e' :: r => some (Json.bool false, r)
  | _ => none

/-- Parse the digits of a negative number (the minus sign already
consumed). -/
def parseNegLit : List Char → Option (Json × List Char)
  | d :: r =>
    if isDigitC d then
      let p := parseDigits (d :: r) 0
      some (Json.num (-(p.1 : Int)), p.2)
    else none
  | [] => none

mutual

/-- Parse one JSON value starting at the head of `cs` (callers strip
leading whitespace).  `fuel` bounds the recursion depth; the top-level
entry point supplies enough for any input it accepts. -/
def parseVal : Nat → List Char → Option (Json × List Char)
  | 0, _ => none
  | _ + 1, [] => none
  | fuel + 1, c :: rest =>
    if c = 'n' then parseNullLit rest
    else if c = 't' then parseTrueLit rest
    else if c = 'f' then parseFalseLit rest
    else if c = quoteC then
      (fun p => (Json.str (String.mk p.1), p.2)) <$> parseStrChars rest
    else if c = '-' then parseNegLit rest
    else if isDigitC c then
      let p := parseDigits (c :: rest) 0
      some (Json.num (p.1 : Int), p.2)
    else if c = '[' then
      match skipWs rest with
      | [] => none
      | d :: r => if d = ']' then some (Json.arr [], r) else parseArrItems fuel (d :: r) []
    else if c = lbraceC then
      match skipWs rest with
      | [] => none
      | d :: r => if d = rbraceC then some (Json.obj [], r) else parseObjItems fuel (d :: r) []
    else none

/-- Parse the remaining items of a non-empty array, `cs` starting at a
value. -/
def parseArrItems : Nat → List Char → List Json → Option (Json × List Char)
  | 0, _, _ => none
  | fuel + 1, cs, acc =>
    match parseVal fuel cs with
    | none => none
    | some (v, r) =>
      match skipWs r with
      | [] => none
      | d :: r2 =>
        if d = ',' then parseArrItems fuel (skipWs r2) (acc ++ [v])
        else if d = ']' then some (Json.arr (acc ++ [v]), r2)
        else none

/-- Parse the remaining fields of a non-empty object, `cs` starting at a
key string. -/
def parseObjItems : Nat → List Char → List (String × Json) → Option (Json × List Char)
  | 0, _, _ => none
  | fuel + 1, cs, acc =>
    match cs with
    | c :: r =>
      if c = quoteC then
        match parseStrChars r with
        | none => none
        | some (k, r2) =>
          match skipWs r2 with
          | [] => none
          | d :: r3 =>
            if d = ':' then
              match parseVal fuel (skipWs r3) with
              | none => none
              | some (v, r4) =>
                match skipWs r4 with
                | [] => none
                | d2 :: r5 =>
                  if d2 = ',' then parseObjItems fuel (skipWs r5) (objInsert acc (String.mk k) v)
                  else if d2 = rbraceC then
                    some (Json.obj (objInsert acc (String.mk k) v), r5)
                  else none
            else none
      else none
    | [] => none

end

/-- `JSON.parse`: parse one value surrounded by optional whitespace,
rejecting trailing garbage. -/
def parseJson (s : String) : Option Json :=
  match parseVal (2 * s.data.length + 2) (skipWs s.data) with
  | some (v, rest) => if skipWs rest = [] then some v else none
  | none => none


/-- The keys of an object field list, in order. -/
def keys (fs : List (String × Json)) : List String := fs.map (fun e => e.1)

/-- No key occurs twice. -/
def nodupKeys : List (String × Json) → Bool
  | [] => true
  | (k, _) :: fs => (!(decide (k ∈ keys fs))) && nodupKeys fs

mutual

/-- Well-formedness of a JSON value as produced by the tool: every
object has pairwise-distinct keys (a JavaScript object literal cannot
carry duplicate keys, and `JSON.parse` would collapse them). -/
def jwf (v : Json) : Bool :=
  match v with
  | Json.null => true
  | Json.bool _ => true
  | Json.num _ => true
  | Json.str _ => true
  | Json.arr xs => jwfList xs
  | Json.obj fs => nodupKeys fs && jwfFields fs
  termination_by sizeOf v
  decreasing_by all_goals (simp_wf <;> omega)

/-- All array elements well-formed. -/
def jwfList (xs : List Json) : Bool :=
  match xs with
  | [] => true
  | x :: xs => jwf x && jwfList xs
  termination_by sizeOf xs
  decreasing_by all_goals (simp_wf <;> omega)

/-- All object field values well-formed. -/
def jwfFields (fs : List (String × Json)) : Bool :=
  match fs with
  | [] => true
  | (_, v) :: fs => jwf v && jwfFields fs
  termination_by sizeOf fs
  decreasing_by all_goals (simp_wf <;> omega)

end

mutual

/-- Node-counting size of a value, used to supply parser fuel. -/
def jsize (v : Json) : Nat :=
  match v with
  | Json.null => 1
  | Json.bool _ => 1
  | Json.num _ => 1
  | Json.str _ => 1
  | Json.arr xs => 1 + jsizeList xs
  | Json.obj fs => 1 + jsizeFields fs
  termination_by sizeOf v
  decreasing_by all_goals (simp_wf <;> omega)

/-- Size of an array item list. -/
def jsizeList (xs : List Json) : Nat :=
  match xs with
  | [] => 1
  | x :: xs => 1 + jsize x + jsizeList xs
  termination_by sizeOf xs
  decreasing_by all_goals (simp_wf <;> omega)

/-- Size of an object field list. -/
def jsizeFields (fs : List (String × Json)) : Nat :=
  match fs with
  | [] => 1
  | (_, v) :: fs => 1 + jsize v + jsizeFields fs
  termination_by sizeOf fs
  decreasing_by all_goals (simp_wf <;> omega)

end

/-- What follows an array item in the rendered text: either the closing
line of the array or a comma and the remaining item lines. -/
def arrSep (xs : List Json) (ind ind0 : Nat) (rest : List Char) : List Char :=
  match xs with
  | [] => '\n' :: nspaces ind0 ++ ']' :: rest
  | y :: ys => ',' :: '\n' :: renderArrList (y :: ys) ind ++ '\n' :: nspaces ind0 ++ ']' :: rest

/-- What follows an object field in the rendered text. -/
def objSep (fs : List (String × Json)) (ind ind0 : Nat) (rest : List Char) : List Char :=
  match fs with
  | [] => '\n' :: nspaces ind0 ++ rbraceC :: rest
  | g :: gs => ',' :: '\n' :: renderObjList (g :: gs) ind ++ '\n' :: nspaces ind0 ++ rbraceC :: rest

/-! ## The file-system model and the record store

`fileUtils.saveJson` (src/utils.js, lines 436-440) ensures the directory
exists and runs `fs.writeFileSync(filePath, JSON.stringify(data, null, 2))`;
`fileUtils.loadJson` (lines 443-448) throws when the file does not exist
and otherwise returns `JSON.parse(fs.readFileSync(filePath, 'utf8'))`.
The file system is a path-to-text association list. -/

/-- File contents by path. -/
abbrev FileSystem := List (String × String)

/-- `fs.writeFileSync`: replace the contents at `path`, creating the
file if needed. -/
def setFile : FileSystem → String → String → FileSystem
  | [], path, text => [(path, text)]
  | (p0, t0) :: rest, path, text =>
    if p0 = path then (p0, text) :: rest else (p0, t0) :: setFile rest path text

/-- `fs.readFileSync` guarded by `fs.existsSync`. -/
def readFile (disk : FileSystem) (path : String) : Option String :=
  (disk.find? (fun e => e.1 == path)).map (fun e => e.2)

/-- `fileUtils.saveJson`. -/
def saveJson (disk : FileSystem) (path : String) (data : Json) : FileSystem :=
  setFile disk path (stringifyPretty data)

/-- `fileUtils.loadJson`: `none` models the throw on a missing file or a
parse error. -/
def loadJson (disk : FileSystem) (path : String) : Option Json :=
  (readFile disk path).bind parseJson


/-- A list either empty or starting with a non-digit. -/
def noDigitHead : List Char → Prop
  | [] => True
  | c :: _ => isDigitC c = false

/-- Characters that can start a rendered JSON value. -/
def isValueStartC (c : Char) : Bool :=
  c = 'n' ∨ c = 't' ∨ c = 'f' ∨ c = quoteC ∨ c = '-' ∨ isDigitC c ∨ c = '[' ∨ c = lbraceC

/-- A representative token record as a JSON value, with the fields the
tool writes. -/
def sampleJson : Json :=
  Json.obj [("name", Json.str "My Token"), ("symbol", Json.str "MTK"),
    ("decimals", Json.num 9), ("isMutable", Json.bool true), ("freezeAuth", Json.null),
    ("delta", Json.num (-42)),
    ("tags", Json.arr [Json.str "a", Json.num 0, Json.obj [], Json.arr []]),
    ("note", Json.str (String.mk [quoteC, backslashC, Char.ofNat 9, Char.ofNat 3, 'z']))]

/-! ## Sample values used by the concrete witnesses -/

/-- A representative stored token record. -/
def sampleRecord : TokenRecord :=
  { name := "My Token", symbol := "MTK", mintAddress := "Mint1111111111111111111111111111"
    network := "devnet", totalMinted := 1000000, lastMintAmount := none, lastMintDate := none
    mintAuthorityRevoked := false, freezeAuthorityRevoked := false
    mintRevokeTransaction := none, freezeRevokeTransaction := none, lastRevokeDate := none }

/-- A token directory with one readable record and one malformed file. -/
def sampleStore : TokenStore :=
  [("tokens/MTK-1700000000000.json", some sampleRecord), ("tokens/broken.json", none)]

/-- A record whose authorities are already revoked. -/
def sampleRecordRevoked : TokenRecord :=
  { sampleRecord with mintAuthorityRevoked := true, freezeAuthorityRevoked := true }

/-- Results of a revocation run in which both new attempts failed. -/
def sampleFailedResults : RevokeResults :=
  { mintRevoked := some false, freezeRevoked := some false
    mintRevokeSignature := none, freezeRevokeSignature := none }

/-- Representative on-chain metadata with a non-empty URI. -/
def sampleMetadata : OnchainMetadata :=
  { name := "My Token", symbol := "MTK", uri := "https://gateway.pinata.cloud/ipfs/QmSample" }

/-! ## Helper lemmas and byte-level facts -/

theorem writeBytes_length (b : List Nat) (off : Nat) (xs : List Nat)
    (h : off + xs.length ≤ b.length) :
    (writeBytes b off xs).length = b.length := by
  simp only [writeBytes, List.length_append, List.length_take, List.length_drop]
  omega

theorem byteAt_writeBytes_inside (b : List Nat) (off : Nat) (xs : List Nat)
    (i : Nat) (hi : i < xs.length) (hoff : off ≤ b.length) :
    byteAt (writeBytes b off xs) (off + i) = byteAt xs i := by
  have ht : (b.take off).length = off := by
    rw [List.length_take]
    omega
  simp only [byteAt, writeBytes]
  rw [List.getD_eq_getElem?_getD, List.getD_eq_getElem?_getD, List.append_assoc]
  rw [List.getElem?_append_right (le_of_eq_of_le ht (by omega) : (b.take off).length ≤ off + i)]
  rw [ht, Nat.add_sub_cancel_left]
  rw [List.getElem?_append_left hi]

theorem readU64LE_writeBytes (b : List Nat) (off : Nat) (s : Nat)
    (hoff : off ≤ b.length) (hs : s < 2 ^ 64) :
    readU64LE (writeBytes b off (encodeU64LE s)) off = s := by
  have hread : ∀ i : Nat, i < 8 →
      byteAt (writeBytes b off (encodeU64LE s)) (off + i) = byteAt (encodeU64LE s) i := by
    intro i hi
    exact byteAt_writeBytes_inside b off (encodeU64LE s) i (by simp [encodeU64LE]; omega) hoff
  have h0 : byteAt (writeBytes b off (encodeU64LE s)) off = s % 256 := by
    have := hread 0 (by omega)
    simpa [encodeU64LE, byteAt] using this
  have h1 : byteAt (writeBytes b off (encodeU64LE s)) (off + 1) = s / 256 % 256 := by
    have := hread 1 (by omega)
    simpa [encodeU64LE, byteAt] using this
  have h2 : byteAt (writeBytes b off (encodeU64LE s)) (off + 2) = s / 65536 % 256 := by
    have := hread 2 (by omega)
    simpa [encodeU64LE, byteAt] using this
  have h3 : byteAt (writeBytes b off (encodeU64LE s)) (off + 3) = s / 16777216 % 256 := by
    have := hread 3 (by omega)
    simpa [encodeU64LE, byteAt] using this
  have h4 : byteAt (writeBytes b off (encodeU64LE s)) (off + 4) = s / 4294967296 % 256 := by
    have := hread 4 (by omega)
    simpa [encodeU64LE, byteAt] using this
  have h5 : byteAt (writeBytes b off (encodeU64LE s)) (off + 5) = s / 1099511627776 % 256 := by
    have := hread 5 (by omega)
    simpa [encodeU64LE, byteAt] using this
  have h6 : byteAt (writeBytes b off (encodeU64LE s)) (off + 6) = s / 281474976710656 % 256 := by
    have := hread 6 (by omega)
    simpa [encodeU64LE, byteAt] using this
  have h7 : byteAt (writeBytes b off (encodeU64LE s)) (off + 7) = s / 72057594037927936 % 256 := by
    have := hread 7 (by omega)
    simpa [encodeU64LE, byteAt] using this
  have h64 : s < 18446744073709551616 := by
    calc s < 2 ^ 64 := hs
    _ = 18446744073709551616 := by norm_num
  unfold readU64LE
  rw [h0, h1, h2, h3, h4, h5, h6, h7]
  omega

theorem parseMintStep_fst (b : List Nat) : (parseMintStep b).1 = decodeMint b := by
  by_cases h : 82 ≤ b.length
  · have h44 : 36 + 8 ≤ b.length := by omega
    simp [parseMintStep, decodeMint, readU64LEChecked, h, h44]
  · simp [parseMintStep, decodeMint, h]

/-! ## Round-trip lemmas -/

theorem digitC_toNat (d : Nat) (h : d < 10) : (digitC d).toNat = 48 + d := by
  interval_cases d <;> decide

theorem isDigitC_digitC (d : Nat) (h : d < 10) : isDigitC (digitC d) = true := by
  interval_cases d <;> decide

theorem skipWs_cons_ws (c : Char) (l : List Char) (h : isWsC c = true) :
    skipWs (c :: l) = skipWs l := by
  simp [skipWs, h]

theorem skipWs_cons_not_ws (c : Char) (l : List Char) (h : isWsC c = false) :
    skipWs (c :: l) = c :: l := by
  simp [skipWs, h]

theorem skipWs_nspaces (n : Nat) (l : List Char) :
    skipWs (nspaces n ++ l) = skipWs l := by
  induction n with
  | zero => simp [nspaces]
  | succ m ih =>
    have : nspaces (m + 1) = ' ' :: nspaces m := by
      simp [nspaces, List.replicate_succ]
    rw [this, List.cons_append, skipWs_cons_ws _ _ (by decide)]
    exact ih

theorem natDigitsRev_small (n : Nat) (h : n < 10) : natDigitsRev n = [digitC n] := by
  rw [natDigitsRev]
  simp [h]

theorem natDigitsRev_large (n : Nat) (h : ¬ n < 10) :
    natDigitsRev n = digitC (n % 10) :: natDigitsRev (n / 10) := by
  conv_lhs => rw [natDigitsRev]
  simp [h]

theorem natChars_split (n : Nat) (h : ¬ n < 10) :
    natChars n = natChars (n / 10) ++ [digitC (n % 10)] := by
  unfold natChars
  rw [natDigitsRev_large n h, List.reverse_cons]

theorem natChars_head : ∀ n : Nat, ∃ d ds, d < 10 ∧ natChars n = digitC d :: ds := by
  intro n
  induction n using Nat.strong_induction_on with
  | _ n ih =>
    by_cases h : n < 10
    · exact ⟨n, [], h, by rw [natChars, natDigitsRev_small n h]; rfl⟩
    · obtain ⟨d, ds, hd, hds⟩ := ih (n / 10) (by omega)
      exact ⟨d, ds ++ [digitC (n % 10)], hd, by
        rw [natChars_split n h, hds, List.cons_append]⟩

theorem parseDigits_stop (rest : List Char) (acc : Nat) (h : noDigitHead rest) :
    parseDigits rest acc = (acc, rest) := by
  cases rest with
  | nil => rfl
  | cons c cs =>
    simp only [noDigitHead] at h
    simp [parseDigits, h]

theorem parseDigits_natChars : ∀ n rest acc,
    parseDigits (natChars n ++ rest) acc =
      parseDigits rest (acc * 10 ^ (natDigitsRev n).length + n) := by
  intro n
  induction n using Nat.strong_induction_on with
  | _ n ih =>
    intro rest acc
    by_cases h : n < 10
    · rw [natChars, natDigitsRev_small n h]
      simp only [List.reverse_singleton, List.cons_append, List.nil_append]
      rw [parseDigits, if_pos (isDigitC_digitC n h), digitC_toNat n h]
      congr 1
      simp only [List.length_singleton, pow_one]
      omega
    · rw [natChars_split n h, List.append_assoc, ih (n / 10) (by omega), List.cons_append,
        List.nil_append, parseDigits, if_pos (isDigitC_digitC _ (by omega : n % 10 < 10)),
        digitC_toNat _ (by omega : n % 10 < 10)]
      congr 1
      rw [natDigitsRev_large n h]
      simp only [List.length_cons]
      have hpow : (10 : Nat) ^ ((natDigitsRev (n / 10)).length + 1) =
          10 ^ (natDigitsRev (n / 10)).length * 10 := by
        rw [pow_succ]
      rw [hpow]
      have hmod : n % 10 + 10 * (n / 10) = n := Nat.mod_add_div n 10
      set P := (10 : Nat) ^ (natDigitsRev (n / 10)).length
      calc (acc * P + n / 10) * 10 + (48 + n % 10 - 48)
          = acc * (P * 10) + ((n / 10) * 10 + n % 10) := by
            have : 48 + n % 10 - 48 = n % 10 := by omega
            rw [this]
            ring
        _ = acc * (P * 10) + n := by
            congr 1
            omega

theorem parseDigits_natChars_value (n : Nat) (rest : List Char) (h : noDigitHead rest) :
    parseDigits (natChars n ++ rest) 0 = (n, rest) := by
  rw [parseDigits_natChars n rest 0, parseDigits_stop rest _ h]
  simp

theorem hexVal_hexC (x : Nat) (h : x < 16) : hexVal (hexC x) = some x := by
  interval_cases x <;> decide

@[simp] theorem backslashC_ne_quoteC : ¬ (backslashC = quoteC) := by decide

@[simp] theorem bC_ne_quoteC : ¬ ('b' = quoteC) := by decide

@[simp] theorem bC_ne_backslashC : ¬ ('b' = backslashC) := by decide

@[simp] theorem bC_ne_slashC : ¬ ('b' = '/') := by decide

@[simp] theorem tC_ne_quoteC : ¬ ('t' = quoteC) := by decide

@[simp] theorem tC_ne_backslashC : ¬ ('t' = backslashC) := by decide

@[simp] theorem tC_ne_slashC : ¬ ('t' = '/') := by decide

@[simp] theorem tC_ne_bC : ¬ ('t' = 'b') := by decide

@[simp] theorem nC_ne_quoteC : ¬ ('n' = quoteC) := by decide

@[simp] theorem nC_ne_backslashC : ¬ ('n' = backslashC) := by decide

@[simp] theorem nC_ne_slashC : ¬ ('n' = '/') := by decide

@[simp] theorem nC_ne_bC : ¬ ('n' = 'b') := by decide

@[simp] theorem nC_ne_tC : ¬ ('n' = 't') := by decide

@[simp] theorem fC_ne_quoteC : ¬ ('f' = quoteC) := by decide

@[simp] theorem fC_ne_backslashC : ¬ ('f' = backslashC) := by decide

@[simp] theorem fC_ne_slashC : ¬ ('f' = '/') := by decide

@[simp] theorem fC_ne_bC : ¬ ('f' = 'b') := by decide

@[simp] theorem fC_ne_tC : ¬ ('f' = 't') := by decide

@[simp] theorem fC_ne_nC : ¬ ('f' = 'n') := by decide

@[simp] theorem rC_ne_quoteC : ¬ ('r' = quoteC) := by decide

@[simp] theorem rC_ne_backslashC : ¬ ('r' = backslashC) := by decide

@[simp] theorem rC_ne_slashC : ¬ ('r' = '/') := by decide

@[simp] theorem rC_ne_bC : ¬ ('r' = 'b') := by decide

@[simp] theorem rC_ne_tC : ¬ ('r' = 't') := by decide

@[simp] theorem rC_ne_nC : ¬ ('r' = 'n') := by decide

@[simp] theorem rC_ne_fC : ¬ ('r' = 'f') := by decide

@[simp] theorem uC_ne_quoteC : ¬ ('u' = quoteC) := by decide

@[simp] theorem uC_ne_backslashC : ¬ ('u' = backslashC) := by decide

@[simp] theorem uC_ne_slashC : ¬ ('u' = '/') := by decide

@[simp] theorem uC_ne_bC : ¬ ('u' = 'b') := by decide

@[simp] theorem uC_ne_tC : ¬ ('u' = 't') := by decide

@[simp] theorem uC_ne_nC : ¬ ('u' = 'n') := by decide

@[simp] theorem uC_ne_fC : ¬ ('u' = 'f') := by decide

@[simp] theorem uC_ne_rC : ¬ ('u' = 'r') := by decide

@[simp] theorem hexVal_zeroC : hexVal '0' = some 0 := by decide

theorem parseStrChars_escape : ∀ (s rest : List Char),
    parseStrChars (escapeList s ++ quoteC :: rest) = some (s, rest) := by
  intro s
  induction s with
  | nil =>
    intro rest
    rw [escapeList, List.nil_append, parseStrChars.eq_def]
    simp
  | cons c cs ih =>
    intro rest
    rw [escapeList, List.append_assoc]
    by_cases h1 : c = quoteC
    · subst h1
      rw [show escChar quoteC = [backslashC, quoteC] from by decide]
      rw [List.cons_append, List.cons_append, List.nil_append, parseStrChars.eq_def]
      simp [ih]
    · by_cases h2 : c = backslashC
      · subst h2
        rw [show escChar backslashC = [backslashC, backslashC] from by decide]
        rw [List.cons_append, List.cons_append, List.nil_append, parseStrChars.eq_def]
        simp [ih]
      · by_cases h3 : c = Char.ofNat 8
        · subst h3
          rw [show escChar (Char.ofNat 8) = [backslashC, 'b'] from by decide]
          rw [List.cons_append, List.cons_append, List.nil_append, parseStrChars.eq_def]
          simp [ih]
        · by_cases h4 : c = Char.ofNat 9
          · subst h4
            rw [show escChar (Char.ofNat 9) = [backslashC, 't'] from by decide]
            rw [List.cons_append, List.cons_append, List.nil_append, parseStrChars.eq_def]
            simp [ih]
          · by_cases h5 : c = Char.ofNat 10
            · subst h5
              rw [show escChar (Char.ofNat 10) = [backslashC, 'n'] from by decide]
              rw [List.cons_append, List.cons_append, List.nil_append, parseStrChars.eq_def]
              simp [ih]
            · by_cases h6 : c = Char.ofNat 12
              · subst h6
                rw [show escChar (Char.ofNat 12) = [backslashC, 'f'] from by decide]
                rw [List.cons_append, List.cons_append, List.nil_append, parseStrChars.eq_def]
                simp [ih]
              · by_cases h7 : c = Char.ofNat 13
                · subst h7
                  rw [show escChar (Char.ofNat 13) = [backslashC, 'r'] from by decide]
                  rw [List.cons_append, List.cons_append, List.nil_append, parseStrChars.eq_def]
                  simp [ih]
                · by_cases h8 : c.toNat < 32
                  · rw [show escChar c =
                        [backslashC, 'u', '0', '0', hexC (c.toNat / 16), hexC (c.toNat % 16)]
                        from by simp [escChar, h1, h2, h3, h4, h5, h6, h7, h8]]
                    rw [List.cons_append, List.cons_append, List.cons_append, List.cons_append,
                      List.cons_append, List.cons_append, List.nil_append, parseStrChars.eq_def]
                    have hhi : hexVal (hexC (c.toNat / 16)) = some (c.toNat / 16) :=
                      hexVal_hexC _ (by omega)
                    have hlo : hexVal (hexC (c.toNat % 16)) = some (c.toNat % 16) :=
                      hexVal_hexC _ (by omega)
                    simp [hhi, hlo, ih]
                    have harg : 16 * (c.toNat / 16) + c.toNat % 16 = c.toNat := by omega
                    rw [harg, Char.ofNat_toNat]
                  · rw [show escChar c = [c] from by
                        simp [escChar, h1, h2, h3, h4, h5, h6, h7, h8]]
                    rw [List.cons_append, List.nil_append, parseStrChars.eq_def]
                    simp [h1, h2, ih]

theorem isDigitC_not_ws (c : Char) (h : isDigitC c = true) : isWsC c = false := by
  simp only [isWsC, decide_eq_false_iff_not]
  rintro (rfl | rfl | rfl | rfl) <;> simp [isDigitC] at h

theorem isValueStartC_not_ws (c : Char) (h : isValueStartC c = true) : isWsC c = false := by
  have h2 := (by simpa [isValueStartC] using h :
    c = 'n' ∨ c = 't' ∨ c = 'f' ∨ c = quoteC ∨ c = '-' ∨
      isDigitC c = true ∨ c = '[' ∨ c = lbraceC)
  rcases h2 with rfl | rfl | rfl | rfl | rfl | hd | rfl | rfl
  · decide
  · decide
  · decide
  · decide
  · decide
  · exact isDigitC_not_ws c hd
  · decide
  · decide

theorem isValueStartC_ne_rsq (c : Char) (h : isValueStartC c = true) : ¬ (c = ']') := by
  intro he
  subst he
  simp [isValueStartC, isDigitC, quoteC, lbraceC] at h

theorem isValueStartC_ne_rbrace (c : Char) (h : isValueStartC c = true) : ¬ (c = rbraceC) := by
  intro he
  subst he
  simp [isValueStartC, isDigitC, quoteC, lbraceC, rbraceC] at h

theorem render_head : ∀ (v : Json) (ind : Nat),
    ∃ c l, render v ind = c :: l ∧ isValueStartC c = true := by
  intro v ind
  cases v with
  | null => exact ⟨'n', ['u', 'l', 'l'], by simp [render], by decide⟩
  | bool b => cases b with
    | true => exact ⟨'t', ['r', 'u', 'e'], by simp [render], by decide⟩
    | false => exact ⟨'f', ['a', 'l', 's', 'e'], by simp [render], by decide⟩
  | num n =>
    by_cases hn : n < 0
    · exact ⟨'-', natChars n.natAbs, by simp [render, intChars, hn], by decide⟩
    · obtain ⟨d, ds, hd, hds⟩ := natChars_head n.natAbs
      refine ⟨digitC d, ds, ?_, ?_⟩
      · simp [render, intChars, hn, hds]
      · simp [isValueStartC, isDigitC_digitC d hd]
  | str t =>
    exact ⟨quoteC, escapeList t.data ++ [quoteC], by simp [render], by simp [isValueStartC]⟩
  | arr xs => cases xs with
    | nil => exact ⟨'[', [']'], by simp [render], by decide⟩
    | cons x xs =>
      exact ⟨'[', '\n' :: (renderArrList (x :: xs) (ind + 2) ++ '\n' :: (nspaces ind ++ [']'])),
        by simp [render], by decide⟩
  | obj fs => cases fs with
    | nil => exact ⟨lbraceC, [rbraceC], by simp [render], by simp [isValueStartC]⟩
    | cons f fs =>
      exact ⟨lbraceC,
        '\n' :: (renderObjList (f :: fs) (ind + 2) ++ '\n' :: (nspaces ind ++ [rbraceC])),
        by simp [render], by simp [isValueStartC]⟩

theorem skipWs_render (v : Json) (ind : Nat) (rest : List Char) :
    skipWs (render v ind ++ rest) = render v ind ++ rest := by
  obtain ⟨c, l, hcl, hc⟩ := render_head v ind
  rw [hcl, List.cons_append, skipWs_cons_not_ws _ _ (isValueStartC_not_ws c hc)]

theorem renderArrList_expand (x : Json) (xs : List Json) (ind ind0 : Nat) (rest : List Char) :
    renderArrList (x :: xs) ind ++ '\n' :: (nspaces ind0 ++ (']' :: rest)) =
      nspaces ind ++ (render x ind ++ arrSep xs ind ind0 rest) := by
  cases xs with
  | nil => simp [renderArrList, arrSep, List.append_assoc]
  | cons y ys => simp [renderArrList, arrSep, List.append_assoc]

theorem renderObjList_expand (k : String) (v : Json) (fs : List (String × Json))
    (ind ind0 : Nat) (rest : List Char) :
    renderObjList ((k, v) :: fs) ind ++ '\n' :: (nspaces ind0 ++ (rbraceC :: rest)) =
      nspaces ind ++ (quoteC :: (escapeList k.data ++
        (quoteC :: ':' :: ' ' :: (render v ind ++ objSep fs ind ind0 rest)))) := by
  cases fs with
  | nil => simp [renderObjList, objSep, List.append_assoc]
  | cons g gs => simp [renderObjList, objSep, List.append_assoc]

theorem noDigitHead_arrSep (xs : List Json) (ind ind0 : Nat) (rest : List Char) :
    noDigitHead (arrSep xs ind ind0 rest) := by
  cases xs with
  | nil => simp [arrSep, noDigitHead, isDigitC]
  | cons y ys => simp [arrSep, noDigitHead, isDigitC]

theorem noDigitHead_objSep (fs : List (String × Json)) (ind ind0 : Nat) (rest : List Char) :
    noDigitHead (objSep fs ind ind0 rest) := by
  cases fs with
  | nil => simp [objSep, noDigitHead, isDigitC]
  | cons g gs => simp [objSep, noDigitHead, isDigitC]

@[simp] theorem tC_ne_nC : ¬ ('t' = 'n') := by decide

@[simp] theorem quoteC_ne_nC : ¬ (quoteC = 'n') := by decide

@[simp] theorem quoteC_ne_tC : ¬ (quoteC = 't') := by decide

@[simp] theorem quoteC_ne_fC : ¬ (quoteC = 'f') := by decide

@[simp] theorem dashC_ne_nC : ¬ ('-' = 'n') := by decide

@[simp] theorem dashC_ne_tC : ¬ ('-' = 't') := by decide

@[simp] theorem dashC_ne_fC : ¬ ('-' = 'f') := by decide

@[simp] theorem dashC_ne_quoteC : ¬ ('-' = quoteC) := by decide

@[simp] theorem lsqC_ne_nC : ¬ ('[' = 'n') := by decide

@[simp] theorem lsqC_ne_tC : ¬ ('[' = 't') := by decide

@[simp] theorem lsqC_ne_fC : ¬ ('[' = 'f') := by decide

@[simp] theorem lsqC_ne_quoteC : ¬ ('[' = quoteC) := by decide

@[simp] theorem lsqC_ne_dashC : ¬ ('[' = '-') := by decide

@[simp] theorem isDigitC_lsqC : isDigitC '[' = false := by decide

@[simp] theorem lbraceC_ne_nC : ¬ (lbraceC = 'n') := by decide

@[simp] theorem lbraceC_ne_tC : ¬ (lbraceC = 't') := by decide

@[simp] theorem lbraceC_ne_fC : ¬ (lbraceC = 'f') := by decide

@[simp] theorem lbraceC_ne_quoteC : ¬ (lbraceC = quoteC) := by decide

@[simp] theorem lbraceC_ne_dashC : ¬ (lbraceC = '-') := by decide

@[simp] theorem lbraceC_ne_lsqC : ¬ (lbraceC = '[') := by decide

@[simp] theorem isDigitC_lbraceC : isDigitC lbraceC = false := by decide

@[simp] theorem rsqC_ne_commaC : ¬ (']' = ',') := by decide

@[simp] theorem rbraceC_ne_commaC : ¬ (rbraceC = ',') := by decide

@[simp] theorem isWsC_commaC : isWsC ',' = false := by decide

@[simp] theorem isWsC_rsqC : isWsC ']' = false := by decide

@[simp] theorem isWsC_rbraceC : isWsC rbraceC = false := by decide

@[simp] theorem isWsC_colonC : isWsC ':' = false := by decide

@[simp] theorem isWsC_newlineC : isWsC '\n' = true := by decide

theorem isDigitC_ne_nC (c : Char) (h : isDigitC c = true) : ¬ (c = 'n') := by
  intro he
  subst he
  simp [isDigitC] at h

theorem isDigitC_ne_tC (c : Char) (h : isDigitC c = true) : ¬ (c = 't') := by
  intro he
  subst he
  simp [isDigitC] at h

theorem isDigitC_ne_fC (c : Char) (h : isDigitC c = true) : ¬ (c = 'f') := by
  intro he
  subst he
  simp [isDigitC] at h

theorem isDigitC_ne_quoteC (c : Char) (h : isDigitC c = true) : ¬ (c = quoteC) := by
  intro he
  subst he
  simp [isDigitC, quoteC] at h

theorem isDigitC_ne_dashC (c : Char) (h : isDigitC c = true) : ¬ (c = '-') := by
  intro he
  subst he
  simp [isDigitC] at h

theorem jsize_pos : ∀ v : Json, 1 ≤ jsize v := by
  intro v
  cases v <;> simp [jsize]

theorem keys_append (a b : List (String × Json)) : keys (a ++ b) = keys a ++ keys b := by
  simp [keys]

theorem nodupKeys_head_not_in :
    ∀ (acc : List (String × Json)) (k : String) (v : Json) (fs : List (String × Json)),
      nodupKeys (acc ++ (k, v) :: fs) = true → ¬ k ∈ keys acc := by
  intro acc
  induction acc with
  | nil => intro k v fs _ hk; simp [keys] at hk
  | cons e rest ih =>
    intro k v fs h hk
    obtain ⟨k0, v0⟩ := e
    rw [List.cons_append, nodupKeys] at h
    simp only [Bool.and_eq_true, Bool.not_eq_eq_eq_not, Bool.not_true, decide_eq_false_iff_not] at h
    simp only [keys, List.map_cons, List.mem_cons] at hk
    rcases hk with hk | hk
    · exact h.1 (by
        subst hk
        rw [keys_append]
        simp [keys])
    · exact ih k v fs h.2 (by simpa [keys] using hk)

theorem objInsert_fresh :
    ∀ (acc : List (String × Json)) (k : String) (v : Json), ¬ k ∈ keys acc →
      objInsert acc k v = acc ++ [(k, v)] := by
  intro acc
  induction acc with
  | nil => intro k v _; rfl
  | cons e rest ih =>
    intro k v hk
    obtain ⟨k0, v0⟩ := e
    simp only [keys, List.map_cons, List.mem_cons] at hk
    rw [objInsert]
    rw [if_neg (by intro he; exact hk (Or.inl he.symm))]
    rw [List.cons_append, ih k v (by intro hm; exact hk (Or.inr (by simpa [keys] using hm)))]

theorem parseVal_num (fuel : Nat) (n : Int) (rest : List Char) (h : noDigitHead rest) :
    parseVal (fuel + 1) (intChars n ++ rest) = some (Json.num n, rest) := by
  by_cases hn : n < 0
  · obtain ⟨d, ds, hd, hds⟩ := natChars_head n.natAbs
    rw [intChars, if_pos hn, List.cons_append, parseVal]
    simp only [dashC_ne_nC, dashC_ne_tC, dashC_ne_fC, dashC_ne_quoteC, ite_false, if_false,
      if_neg, eq_self_iff_true, ite_true, if_pos]
    rw [parseNegLit.eq_def]
    rw [hds, List.cons_append]
    simp only [isDigitC_digitC d hd, if_true, ite_true]
    rw [← List.cons_append, ← hds, parseDigits_natChars_value n.natAbs rest h]
    have he : -((n.natAbs : Nat) : Int) = n := by omega
    rw [he]
  · obtain ⟨d, ds, hds⟩ := natChars_head n.natAbs
    obtain ⟨hd, hds⟩ := hds
    have hic : intChars n = natChars n.natAbs := by rw [intChars, if_neg hn]
    rw [hic, hds, List.cons_append, parseVal]
    have hdig : isDigitC (digitC d) = true := isDigitC_digitC d hd
    rw [if_neg (isDigitC_ne_nC _ hdig), if_neg (isDigitC_ne_tC _ hdig),
      if_neg (isDigitC_ne_fC _ hdig), if_neg (isDigitC_ne_quoteC _ hdig),
      if_neg (isDigitC_ne_dashC _ hdig), if_pos hdig]
    rw [← List.cons_append, ← hds, parseDigits_natChars_value n.natAbs rest h]
    show (let p := (n.natAbs, rest); some (Json.num (p.1 : Int), p.2)) = some (Json.num n, rest)
    simp only []
    have he : ((n.natAbs : Nat) : Int) = n := by omega
    rw [he]

@[simp] theorem isWsC_spaceC : isWsC ' ' = true := by decide

@[simp] theorem isWsC_quoteC : isWsC quoteC = false := by decide

@[simp] theorem quoteC_ne_rbraceC : ¬ (quoteC = rbraceC) := by decide

theorem parse_render_main : ∀ fuel : Nat,
    (∀ v ind rest, jsize v ≤ fuel → jwf v = true → noDigitHead rest →
      parseVal fuel (render v ind ++ rest) = some (v, rest)) ∧
    (∀ x xs acc ind ind0 rest, 1 + jsize x + jsizeList xs ≤ fuel →
      jwf x = true → jwfList xs = true →
      parseArrItems fuel (render x ind ++ arrSep xs ind ind0 rest) acc =
        some (Json.arr (acc ++ x :: xs), rest)) ∧
    (∀ k v fs acc ind ind0 rest, 1 + jsize v + jsizeFields fs ≤ fuel →
      jwf v = true → jwfFields fs = true →
      nodupKeys (acc ++ (k, v) :: fs) = true →
      parseObjItems fuel (quoteC :: (escapeList k.data ++
          (quoteC :: ':' :: ' ' :: (render v ind ++ objSep fs ind ind0 rest)))) acc =
        some (Json.obj (acc ++ (k, v) :: fs), rest)) := by
  intro fuel
  induction fuel with
  | zero =>
    refine ⟨?_, ?_, ?_⟩
    · intro v ind rest hsz _ _
      exact absurd hsz (by have := jsize_pos v; omega)
    · intro x xs acc ind ind0 rest hsz _ _
      exact absurd hsz (by omega)
    · intro k v fs acc ind ind0 rest hsz _ _ _
      exact absurd hsz (by omega)
  | succ f ih =>
    obtain ⟨ihP, ihQ, ihR⟩ := ih
    refine ⟨?_, ?_, ?_⟩
    · -- one value
      intro v ind rest hsz hwf hrest
      cases v with
      | null =>
        rw [render]
        simp only [List.cons_append, List.nil_append]
        rw [parseVal]
        simp [parseNullLit]
      | bool b =>
        cases b with
        | true =>
          rw [render]
          simp only [List.cons_append, List.nil_append]
          rw [parseVal]
          simp [parseTrueLit]
        | false =>
          rw [render]
          simp only [List.cons_append, List.nil_append]
          rw [parseVal]
          simp [parseFalseLit]
      | num n =>
        rw [render]
        exact parseVal_num f n rest hrest
      | str t =>
        obtain ⟨tl⟩ := t
        rw [render]
        simp only [List.cons_append, List.append_assoc, List.singleton_append]
        rw [parseVal]
        simp [parseStrChars_escape]
      | arr xs =>
        cases xs with
        | nil =>
          rw [render]
          simp only [List.cons_append, List.nil_append]
          rw [parseVal]
          simp [skipWs]
        | cons x xs2 =>
          rw [jsize, jsizeList] at hsz
          rw [jwf, jwfList, Bool.and_eq_true] at hwf
          rw [render]
          simp only [List.cons_append, List.append_assoc, List.singleton_append]
          rw [renderArrList_expand, parseVal]
          simp only [lsqC_ne_nC, lsqC_ne_tC, lsqC_ne_fC, lsqC_ne_quoteC, lsqC_ne_dashC,
            isDigitC_lsqC, ite_false, if_false, if_neg, Bool.false_eq_true, eq_self_iff_true,
            ite_true, if_pos]
          rw [skipWs_cons_ws '\n' _ (by decide), skipWs_nspaces, skipWs_render]
          obtain ⟨c0, l0, hc0, hv0⟩ := render_head x (ind + 2)
          rw [hc0, List.cons_append]
          simp only []
          rw [if_neg (isValueStartC_ne_rsq c0 hv0)]
          rw [← List.cons_append, ← hc0]
          have := ihQ x xs2 [] (ind + 2) ind rest (by omega) hwf.1 hwf.2
          simpa using this
      | obj fs =>
        cases fs with
        | nil =>
          rw [render]
          simp only [List.cons_append, List.nil_append]
          rw [parseVal]
          simp [skipWs]
        | cons g fs2 =>
          obtain ⟨k, v0⟩ := g
          rw [jsize, jsizeFields] at hsz
          rw [jwf, Bool.and_eq_true] at hwf
          obtain ⟨hnd, hwff⟩ := hwf
          rw [jwfFields, Bool.and_eq_true] at hwff
          rw [render]
          simp only [List.cons_append, List.append_assoc, List.singleton_append]
          rw [renderObjList_expand, parseVal]
          simp only [lbraceC_ne_nC, lbraceC_ne_tC, lbraceC_ne_fC, lbraceC_ne_quoteC,
            lbraceC_ne_dashC, lbraceC_ne_lsqC, isDigitC_lbraceC, ite_false, if_false, if_neg,
            Bool.false_eq_true, eq_self_iff_true, ite_true, if_pos]
          rw [skipWs_cons_ws '\n' _ (by decide), skipWs_nspaces,
            skipWs_cons_not_ws quoteC _ isWsC_quoteC]
          simp only []
          rw [if_neg quoteC_ne_rbraceC]
          have := ihR k v0 fs2 [] (ind + 2) ind rest (by omega) hwff.1 hwff.2
            (by simpa using hnd)
          simpa using this
    · -- array items
      intro x xs acc ind ind0 rest hsz hwfx hwfxs
      rw [parseArrItems]
      rw [ihP x ind (arrSep xs ind ind0 rest) (by omega) hwfx (noDigitHead_arrSep xs ind ind0 rest)]
      simp only []
      cases xs with
      | nil =>
        rw [arrSep]
        simp only [List.cons_append, List.append_assoc]
        rw [skipWs_cons_ws '\n' _ (by decide), skipWs_nspaces,
          skipWs_cons_not_ws ']' _ isWsC_rsqC]
        simp only []
        rw [if_neg rsqC_ne_commaC]
        simp
      | cons y ys =>
        rw [jsizeList] at hsz
        rw [jwfList, Bool.and_eq_true] at hwfxs
        rw [arrSep]
        simp only [List.cons_append, List.append_assoc, List.singleton_append]
        rw [skipWs_cons_not_ws ',' _ isWsC_commaC]
        simp only [eq_self_iff_true, if_true, ite_true]
        rw [skipWs_cons_ws '\n' _ (by decide)]
        rw [renderArrList_expand, skipWs_nspaces, skipWs_render]
        have := ihQ y ys (acc ++ [x]) ind ind0 rest (by omega) hwfxs.1 hwfxs.2
        rw [this]
        simp
    · -- object fields
      intro k v fs acc ind ind0 rest hsz hwfv hwff hnd
      rw [parseObjItems]
      simp only [eq_self_iff_true, if_true, ite_true]
      rw [parseStrChars_escape k.data (':' :: ' ' :: (render v ind ++ objSep fs ind ind0 rest))]
      simp only []
      rw [skipWs_cons_not_ws ':' _ isWsC_colonC]
      simp only [eq_self_iff_true, if_true, ite_true]
      rw [skipWs_cons_ws ' ' _ (by decide), skipWs_render]
      rw [ihP v ind (objSep fs ind ind0 rest) (by omega) hwfv (noDigitHead_objSep fs ind ind0 rest)]
      simp only []
      have hmk : String.mk k.data = k := rfl
      have hkfresh : ¬ k ∈ keys acc := nodupKeys_head_not_in acc k v fs hnd
      cases fs with
      | nil =>
        rw [objSep]
        simp only [List.cons_append, List.append_assoc]
        rw [skipWs_cons_ws '\n' _ (by decide), skipWs_nspaces,
          skipWs_cons_not_ws rbraceC _ isWsC_rbraceC]
        simp only []
        rw [if_neg rbraceC_ne_commaC]
        simp only [eq_self_iff_true, if_true, ite_true]
        rw [hmk, objInsert_fresh acc k v hkfresh]
      | cons g gs =>
        obtain ⟨k2, v2⟩ := g
        rw [jsizeFields] at hsz
        rw [jwfFields, Bool.and_eq_true] at hwff
        rw [objSep]
        simp only [List.cons_append, List.append_assoc, List.singleton_append]
        rw [skipWs_cons_not_ws ',' _ isWsC_commaC]
        simp only [eq_self_iff_true, if_true, ite_true]
        rw [skipWs_cons_ws '\n' _ (by decide)]
        rw [renderObjList_expand, skipWs_nspaces, skipWs_cons_not_ws quoteC _ isWsC_quoteC]
        rw [hmk, objInsert_fresh acc k v hkfresh]
        have hnd2 : nodupKeys ((acc ++ [(k, v)]) ++ (k2, v2) :: gs) = true := by
          rw [List.append_assoc]
          simpa using hnd
        have := ihR k2 v2 gs (acc ++ [(k, v)]) ind ind0 rest (by omega) hwff.1 hwff.2 hnd2
        rw [this]
        simp

@[simp] theorem nspaces_length (n : Nat) : (nspaces n).length = n := by
  simp [nspaces]

theorem natChars_length_pos (m : Nat) : 1 ≤ (natChars m).length := by
  obtain ⟨d, ds, _, hds⟩ := natChars_head m
  rw [hds]
  simp

theorem intChars_length_pos (n : Int) : 1 ≤ (intChars n).length := by
  rw [intChars]
  by_cases hn : n < 0
  · simp [hn]
  · simp [hn, natChars_length_pos]

theorem jsize_le_render_len : ∀ n : Nat,
    (∀ v ind, jsize v ≤ n → jsize v ≤ (render v ind).length) ∧
    (∀ x xs ind, 1 + jsize x + jsizeList xs ≤ n → 2 ≤ ind →
      1 + jsize x + jsizeList xs ≤ (renderArrList (x :: xs) ind).length + 1) ∧
    (∀ k v fs ind, 1 + jsize v + jsizeFields fs ≤ n → 2 ≤ ind →
      1 + jsize v + jsizeFields fs ≤ (renderObjList ((k, v) :: fs) ind).length + 1) := by
  intro n
  induction n using Nat.strong_induction_on with
  | _ n ih =>
    refine ⟨?_, ?_, ?_⟩
    · intro v ind hv
      cases v with
      | null => simp [render, jsize]
      | bool b => cases b <;> simp [render, jsize]
      | num m => simp only [render, jsize]; exact intChars_length_pos m
      | str t => simp [render, jsize]
      | arr xs =>
        cases xs with
        | nil => simp [render, jsize, jsizeList]
        | cons x xs2 =>
          have h1 : 1 ≤ jsize x := jsize_pos x
          rw [jsize, jsizeList] at hv ⊢
          have hb := (ih (n - 1) (by omega)).2.1 x xs2 (ind + 2) (by omega) (by omega)
          simp only [render, List.length_append, List.length_cons, nspaces_length,
            List.length_singleton]
          omega
      | obj fs =>
        cases fs with
        | nil => simp [render, jsize, jsizeFields]
        | cons g fs2 =>
          obtain ⟨k, v0⟩ := g
          have h1 : 1 ≤ jsize v0 := jsize_pos v0
          rw [jsize, jsizeFields] at hv ⊢
          have hb := (ih (n - 1) (by omega)).2.2 k v0 fs2 (ind + 2) (by omega) (by omega)
          simp only [render, List.length_append, List.length_cons, nspaces_length,
            List.length_singleton]
          omega
    · intro x xs ind hv hind
      cases xs with
      | nil =>
        have h1 : 1 ≤ jsize x := jsize_pos x
        have hx := (ih (n - 1) (by rw [jsizeList] at hv; omega)).1 x ind
          (by rw [jsizeList] at hv; omega)
        rw [jsizeList] at hv ⊢
        simp only [renderArrList, List.length_append, nspaces_length]
        omega
      | cons y ys =>
        have h1 : 1 ≤ jsize x := jsize_pos x
        have h2 : 1 ≤ jsize y := jsize_pos y
        rw [jsizeList] at hv ⊢
        have hx := (ih (n - 1) (by omega)).1 x ind (by omega)
        have hrest := (ih (n - 1) (by omega)).2.1 y ys ind (by omega) hind
        simp only [renderArrList, List.length_append, List.length_cons, nspaces_length]
        omega
    · intro k v fs ind hv hind
      cases fs with
      | nil =>
        have h1 : 1 ≤ jsize v := jsize_pos v
        have hx := (ih (n - 1) (by rw [jsizeFields] at hv; omega)).1 v ind
          (by rw [jsizeFields] at hv; omega)
        rw [jsizeFields] at hv ⊢
        simp only [renderObjList, List.length_append, List.length_cons, nspaces_length]
        omega
      | cons g gs =>
        obtain ⟨k2, v2⟩ := g
        have h1 : 1 ≤ jsize v := jsize_pos v
        have h2 : 1 ≤ jsize v2 := jsize_pos v2
        rw [jsizeFields] at hv ⊢
        have hx := (ih (n - 1) (by omega)).1 v ind (by omega)
        have hrest := (ih (n - 1) (by omega)).2.2 k2 v2 gs ind (by omega) hind
        simp only [renderObjList, List.length_append, List.length_cons, nspaces_length]
        omega

theorem jsize_le_render (v : Json) (ind : Nat) : jsize v ≤ (render v ind).length :=
  (jsize_le_render_len (jsize v)).1 v ind le_rfl

theorem parseJson_stringify (v : Json) (h : jwf v = true) :
    parseJson (stringifyPretty v) = some v := by
  have hdata : (stringifyPretty v).data = render v 0 := rfl
  rw [parseJson, hdata]
  have hskip : skipWs (render v 0) = render v 0 := by
    rw [← List.append_nil (render v 0), skipWs_render, List.append_nil]
  rw [hskip]
  obtain ⟨fuel, hfuel⟩ : ∃ fuel, 2 * (render v 0).length + 2 = fuel + 1 :=
    ⟨2 * (render v 0).length + 1, rfl⟩
  rw [hfuel]
  have hsz : jsize v ≤ fuel + 1 := by
    have := jsize_le_render v 0
    omega
  have := (parse_render_main (fuel + 1)).1 v 0 [] hsz h trivial
  rw [List.append_nil] at this
  rw [this]
  simp [skipWs]

theorem readFile_setFile : ∀ (disk : FileSystem) (path text : String),
    readFile (setFile disk path text) path = some text := by
  intro disk path text
  induction disk with
  | nil => simp [setFile, readFile, List.find?]
  | cons e rest ih =>
    obtain ⟨p0, t0⟩ := e
    by_cases h : p0 = path
    · subst h
      simp [setFile, readFile, List.find?]
    · rw [setFile, if_neg h, readFile, List.find?]
      have hb : ((p0, t0).1 == path) = false := by
        simpa using h
      rw [hb]
      exact ih

/-- C8.  Saving a record with `saveJson` and loading the same path back
with `loadJson` returns a value field-for-field equal to the one
written. -/
theorem saveJson_loadJson_roundtrip (disk : FileSystem) (path : String) (v : Json)
    (h : jwf v = true) :
    loadJson (saveJson disk path v) path = some v := by
  rw [loadJson, saveJson, readFile_setFile]
  rw [Option.some_bind]
  exact parseJson_stringify v h

/-- Witness for C8 at a concrete record with nested values and
escape-needing strings. -/
theorem saveJson_loadJson_roundtrip_witness :
    jwf sampleJson = true ∧
    loadJson (saveJson [] "tokens/MTK-1700000000000.json" sampleJson)
      "tokens/MTK-1700000000000.json" = some sampleJson := by
  have hwf : jwf sampleJson = true := by
    simp [sampleJson, jwf, jwfList, jwfFields, nodupKeys, keys]
  exact ⟨hwf, saveJson_loadJson_roundtrip [] "tokens/MTK-1700000000000.json" sampleJson hwf⟩

/-! ## The claims -/

/-- C1.  On every buffer of length at least 82 the decoder in
`checkToken` yields the u64 little-endian supply at offset 36, the
decimals byte at offset 44, and the initialized flag iff byte 45 is 1;
encoding any u64 supply little-endian at offset 36 and decoding recovers
it; and the 82-zero-byte buffer with byte 45 set to 1 decodes to
supply 0, decimals 0, initialized true. -/
theorem decodeMint_correct (b : List Nat) (s : Nat)
    (hb : 82 ≤ b.length) (hs : s < 2 ^ 64) :
    decodeMint b = some { supply := readU64LE b 36, decimals := byteAt b 44,
                          isInit := byteAt b 45 == 1 } ∧
    Option.map MintAccountSnapshot.supply
      (decodeMint (writeBytes b 36 (encodeU64LE s))) = some s ∧
    decodeMint scenarioBuf = some { supply := 0, decimals := 0, isInit := true } := by
  refine ⟨by simp [decodeMint, hb], ?_, by decide⟩
  have hlen8 : (encodeU64LE s).length = 8 := by simp [encodeU64LE]
  have hlen : (writeBytes b 36 (encodeU64LE s)).length = b.length :=
    writeBytes_length b 36 (encodeU64LE s) (by rw [hlen8]; omega)
  have h82 : 82 ≤ (writeBytes b 36 (encodeU64LE s)).length := by rw [hlen]; exact hb
  simp [decodeMint, h82, readU64LE_writeBytes b 36 s (by omega : 36 ≤ b.length) hs]

/-- Witness for C1 at a concrete buffer and supply value. -/
theorem decodeMint_correct_witness :
    82 ≤ (List.replicate 82 0).length ∧ 123456789 < 2 ^ 64 ∧
    Option.map MintAccountSnapshot.supply
      (decodeMint (writeBytes (List.replicate 82 0) 36 (encodeU64LE 123456789))) =
        some 123456789 :=
  ⟨by decide, by norm_num,
   (decodeMint_correct (List.replicate 82 0) 123456789 (by decide) (by norm_num)).2.1⟩

/-- C2, counterexample.  A 10-byte buffer is undecodable (`none`), but
the "could not parse" warning is not emitted: the short-buffer case is
skipped silently (the warning only comes from the catch block, which the
skipped branch never reaches), refuting the claim that the short-buffer
case is reported as "could not parse". -/
theorem parseMintStep_short_not_reported :
    parseMintStep (List.replicate 10 0) = (none, false) ∧
    ¬((parseMintStep (List.replicate 10 0)).2 = true) := by
  decide

/-- C2 as amended.  On every buffer shorter than 82 bytes the parse step
returns no mint info and does not throw, the warning is not printed (the
case is skipped silently rather than reported), and the surrounding
inspection continues non-fatally: whenever the account exists with such
data, a report is still produced, with an empty mint-info section. -/
theorem parseMintStep_short_nonfatal (b : List Nat) (hb : b.length < 82) :
    parseMintStep b = (none, false) ∧
    ∀ st : ChainState, st.account = some b →
      ∃ r, checkTokenModel st = InspectionOutcome.report r ∧ r.mintInfo = none := by
  have hp : parseMintStep b = (none, false) := by
    simp [parseMintStep]
    omega
  refine ⟨hp, ?_⟩
  intro st hst
  obtain ⟨acct, md, uf⟩ := st
  simp only at hst
  subst hst
  cases md with
  | none => exact ⟨_, rfl, by simp [checkTokenModel, hp]⟩
  | some m => exact ⟨_, rfl, by simp [checkTokenModel, hp]⟩

/-- Witness for the amended C2 at a concrete short buffer. -/
theorem parseMintStep_short_nonfatal_witness :
    (List.replicate 10 0).length < 82 ∧
    ∃ r, checkTokenModel ⟨some (List.replicate 10 0), none, UriFetchResult.netError⟩ =
      InspectionOutcome.report r ∧ r.mintInfo = none :=
  ⟨by decide,
   (parseMintStep_short_nonfatal (List.replicate 10 0) (by decide)).2
     ⟨some (List.replicate 10 0), none, UriFetchResult.netError⟩ rfl⟩

/-- C3.  For any address and type, on a network whose lower-casing is
devnet or testnet both explorer URLs end with the suffix
`?cluster=<network-lowercase>`; on mainnet no query suffix is appended
to either URL. -/
theorem getExplorerUrls_cluster (address ty network : String) :
    (jsToLower network = "devnet" ∨ jsToLower network = "testnet" →
      strEndsWith (getExplorerUrls address ty network).solana
        ("?cluster=" ++ jsToLower network) ∧
      strEndsWith (getExplorerUrls address ty network).solscan
        ("?cluster=" ++ jsToLower network)) ∧
    (jsToLower network = "mainnet" →
      (getExplorerUrls address ty network).solana =
        "https://explorer.solana.com/" ++ ty ++ "/" ++ address ∧
      (getExplorerUrls address ty network).solscan =
        "https://solscan.io/" ++ ty ++ "/" ++ address) := by
  constructor
  · intro h
    have hne : ¬ jsToLower network = "mainnet" := by
      rcases h with h | h <;> rw [h] <;> decide
    constructor
    · exact ⟨"https://explorer.solana.com/" ++ ty ++ "/" ++ address,
        by simp [getExplorerUrls, hne]⟩
    · exact ⟨"https://solscan.io/" ++ ty ++ "/" ++ address,
        by simp [getExplorerUrls, hne]⟩
  · intro h
    constructor <;> simp [getExplorerUrls, h]

/-- Witness for C3 at concrete networks DEVNET and MAINNET. -/
theorem getExplorerUrls_cluster_witness :
    strEndsWith (getExplorerUrls "Mint1111111111111111111111111111" "address" "DEVNET").solana
      ("?cluster=" ++ jsToLower "DEVNET") ∧
    (getExplorerUrls "Mint1111111111111111111111111111" "address" "MAINNET").solana =
      "https://explorer.solana.com/" ++ "address" ++ "/" ++ "Mint1111111111111111111111111111" :=
  ⟨((getExplorerUrls_cluster "Mint1111111111111111111111111111" "address" "DEVNET").1
      (Or.inl (by decide))).1,
   ((getExplorerUrls_cluster "Mint1111111111111111111111111111" "address" "MAINNET").2
      (by decide)).1⟩

/-- C4.  When no stored record (that loads successfully) has the given
mint address, the patch-by-mint-address operation finds nothing and
leaves the store exactly as it was: no file is created and none is
modified. -/
theorem patchTokenStore_not_found (store : TokenStore) (addr : String) (u : TokenRecord)
    (h : ∀ e ∈ store, ∀ r, e.2 = some r → r.mintAddress ≠ addr) :
    findTokenFile store addr = none ∧ patchTokenStore store addr u = store := by
  have hnone : List.find? (fun e => match e.2 with
      | some r => r.mintAddress == addr
      | none => false) store = none := by
    apply List.find?_eq_none.mpr
    intro e he
    cases h2 : e.2 with
    | none => simp [h2]
    | some r =>
      simp only [h2, Bool.not_eq_true, beq_eq_false_iff_ne, ne_eq]
      exact h e he r h2
  have hf : findTokenFile store addr = none := by
    unfold findTokenFile
    rw [hnone]
    rfl
  refine ⟨hf, ?_⟩
  unfold patchTokenStore
  rw [hf]

/-- Witness for C4: a store with one readable record and one malformed
file, patched at a mint address that matches neither. -/
theorem patchTokenStore_not_found_witness :
    findTokenFile sampleStore "Nope1111111111111111111111111111" = none ∧
    patchTokenStore sampleStore "Nope1111111111111111111111111111" sampleRecord = sampleStore :=
  patchTokenStore_not_found sampleStore "Nope1111111111111111111111111111" sampleRecord
    (by decide)

/-- C5.  The revocation flags written back by `revokeAuthorities` are
monotonic: a flag that is already true in the stored record stays true
in the updated record, whatever the outcome of the new revocation
attempts. -/
theorem updateRecordAfterRevoke_monotonic (results : RevokeResults) (now : String)
    (info : TokenRecord) :
    (info.mintAuthorityRevoked = true →
      (updateRecordAfterRevoke results now info).mintAuthorityRevoked = true) ∧
    (info.freezeAuthorityRevoked = true →
      (updateRecordAfterRevoke results now info).freezeAuthorityRevoked = true) := by
  constructor
  · intro h
    show jsOrBool results.mintRevoked info.mintAuthorityRevoked = true
    rw [h]
    cases hr : results.mintRevoked with
    | none => rfl
    | some b => cases b <;> rfl
  · intro h
    show jsOrBool results.freezeRevoked info.freezeAuthorityRevoked = true
    rw [h]
    cases hr : results.freezeRevoked with
    | none => rfl
    | some b => cases b <;> rfl

/-- Witness for C5: both flags already true, both new attempts failed,
and both flags remain true in the written record. -/
theorem updateRecordAfterRevoke_monotonic_witness :
    sampleRecordRevoked.mintAuthorityRevoked = true ∧
    (updateRecordAfterRevoke sampleFailedResults "2026-10-12T00:00:00.000Z"
      sampleRecordRevoked).mintAuthorityRevoked = true ∧
    (updateRecordAfterRevoke sampleFailedResults "2026-10-12T00:00:00.000Z"
      sampleRecordRevoked).freezeAuthorityRevoked = true :=
  ⟨by decide,
   (updateRecordAfterRevoke_monotonic sampleFailedResults "2026-10-12T00:00:00.000Z"
      sampleRecordRevoked).1 (by decide),
   (updateRecordAfterRevoke_monotonic sampleFailedResults "2026-10-12T00:00:00.000Z"
      sampleRecordRevoked).2 (by decide)⟩

/-- C6.  A mint whose account exists but has no metadata account yields
a successful report with an empty metadata section (exists true,
metadata absent), while a missing mint account yields the distinct
`notFound` outcome that aborts the inspection. -/
theorem checkTokenModel_metadata_absent (st : ChainState) :
    (∀ data, st.account = some data → st.metadataAccount = none →
      checkTokenModel st = InspectionOutcome.report
        { mintInfo := decodeMint data, metadataPresent := false,
          metadata := none, offchain := none }) ∧
    (st.account = none → checkTokenModel st = InspectionOutcome.notFound) := by
  obtain ⟨acct, md, uf⟩ := st
  constructor
  · intro data ha hm
    simp only at ha hm
    subst ha
    subst hm
    simp [checkTokenModel, parseMintStep_fst]
  · intro ha
    simp only at ha
    subst ha
    rfl

/-- Witness for C6 at two concrete chain states. -/
theorem checkTokenModel_metadata_absent_witness :
    checkTokenModel ⟨some scenarioBuf, none, UriFetchResult.netError⟩ =
      InspectionOutcome.report
        { mintInfo := decodeMint scenarioBuf, metadataPresent := false,
          metadata := none, offchain := none } ∧
    checkTokenModel ⟨none, none, UriFetchResult.netError⟩ = InspectionOutcome.notFound :=
  ⟨(checkTokenModel_metadata_absent ⟨some scenarioBuf, none, UriFetchResult.netError⟩).1
      scenarioBuf rfl rfl,
   (checkTokenModel_metadata_absent ⟨none, none, UriFetchResult.netError⟩).2 rfl⟩

/-- C7.  When the on-chain metadata has a URI and the off-chain fetch
fails (non-200 response or thrown transport error), the inspection is
not aborted: the report carries the same mint facts and metadata section
as a successful fetch would, and only the off-chain section is the
"unavailable" marker. -/
theorem checkTokenModel_offchain_degrade (st : ChainState) (data : List Nat)
    (md : OnchainMetadata) (ha : st.account = some data)
    (hm : st.metadataAccount = some md) (hu : md.uri ≠ "")
    (hf : st.uriFetch = UriFetchResult.httpError ∨ st.uriFetch = UriFetchResult.netError) :
    checkTokenModel st = InspectionOutcome.report
      { mintInfo := decodeMint data, metadataPresent := true,
        metadata := some md, offchain := none } ∧
    ∀ j, checkTokenModel { st with uriFetch := UriFetchResult.ok j } =
      InspectionOutcome.report
        { mintInfo := decodeMint data, metadataPresent := true,
          metadata := some md, offchain := some j } := by
  obtain ⟨acct, mdacct, uf⟩ := st
  simp only at ha hm hf ⊢
  subst ha
  subst hm
  constructor
  · rcases hf with hf | hf <;> subst hf <;> simp [checkTokenModel, parseMintStep_fst, hu]
  · intro j
    simp [checkTokenModel, parseMintStep_fst, hu]

/-- Witness for C7 at a concrete chain state with an HTTP 404. -/
theorem checkTokenModel_offchain_degrade_witness :
    checkTokenModel ⟨some scenarioBuf, some sampleMetadata, UriFetchResult.httpError⟩ =
      InspectionOutcome.report
        { mintInfo := decodeMint scenarioBuf, metadataPresent := true,
          metadata := some sampleMetadata, offchain := none } :=
  (checkTokenModel_offchain_degrade
      ⟨some scenarioBuf, some sampleMetadata, UriFetchResult.httpError⟩
      scenarioBuf sampleMetadata rfl rfl (by decide) (Or.inl rfl)).1

/-- C9.  The address validator accepts exactly the strings whose length
lies between 32 and 44 (a non-string input is rejected); it checks no
base58 alphabet membership: a 40-character string containing the
non-base58 characters 0 and ! is accepted. -/
theorem validateAddress_length_only :
    (∀ s : String, validateAddress (some s) = true ↔ 32 ≤ s.length ∧ s.length ≤ 44) ∧
    validateAddress none = false ∧
    nonBase58Sample.length = 40 ∧
    validateAddress (some nonBase58Sample) = true ∧
    nonBase58Sample.data.all isBase58Char = false := by
  refine ⟨fun s => ?_, rfl, by decide, by decide, by decide⟩
  simp [validateAddress]

/-- C10.  `getExplorerUrl` throws on the recognized network TESTNET,
because `CONFIG.EXPLORERS` only has DEVNET and MAINNET entries, while
`CONFIG.NETWORK` does recognize TESTNET. -/
theorem getExplorerUrl_testnet_throws :
    (∃ msg, getExplorerUrl "SOLANA" "TESTNET" = Except.error msg) ∧
    NETWORK "TESTNET" = some "https://api.testnet.solana.com" :=
  ⟨⟨"TypeError: cannot read properties of undefined", rfl⟩, rfl⟩

end LaunchTool
